import Mathlib

/-!
Verification of the fastapi-limiter core: a shallow embedding of the
atomic window-counter Lua script, the refund Lua script, the scope-key
derivation, the bypass authenticator and the script-reload retry logic,
with theorems checking the specification's claims against the code.
-/

set_option linter.unusedVariables false

/-- A counter record in the shared store: the integer count (Redis integers
are signed, so we use Int) and the absolute expiry instant in milliseconds
(records are created with "SET key 1 px expire_time"). -/
structure CounterRecord where
  count : Int
  expireAt : Nat
  deriving DecidableEq, Repr

/-- Redis lazily deletes an expired key: a GET at time now sees a record
only when now < expireAt. This normalises a stored record to what the
scripts can observe. -/
def liveRecord (now : Nat) : Option CounterRecord → Option CounterRecord
  | none => none
  | some r => if r.expireAt ≤ now then none else some r

/-- The value of tonumber(redis.call('get', key) or "0"): the live count,
0 when the key is absent or expired. -/
def curCount (now : Nat) (s : Option CounterRecord) : Int :=
  match liveRecord now s with
  | none => 0
  | some r => r.count

/-- Body of FastAPILimiter.lua_script acting on the observable (live)
record: if current > 0 and current + 1 > limit, return PTTL(key) without
mutating (PTTL is expireAt - now for a live record); if current > 0 and
current + 1 <= limit, INCR (which keeps the TTL) and return 0; otherwise
SET key 1 px expire_time and return 0. -/
def chargeStep (limit window now : Nat) : Option CounterRecord → Nat × Option CounterRecord
  | some r =>
      if 0 < r.count then
        if (limit : Int) < r.count + 1 then
          (r.expireAt - now, some r)
        else
          (0, some { count := r.count + 1, expireAt := r.expireAt })
      else
        (0, some { count := 1, expireAt := now + window })
  | none => (0, some { count := 1, expireAt := now + window })

/-- Embedding of FastAPILimiter.lua_script, the atomic check-and-charge
script: the script's branches act on the record the store lets it observe
at time now. The first component is the script's return value, the second
the state of the key after the call. -/
def checkAndCharge (limit window now : Nat) (s : Option CounterRecord) :
    Nat × Option CounterRecord :=
  chargeStep limit window now (liveRecord now s)

/-- Body of _refund_script acting on the observable (live) record: if
current > 0, DECR (which keeps the TTL); return the count as it was before
the call. -/
def refundStep (now : Nat) : Option CounterRecord → Int × Option CounterRecord
  | some r =>
      if 0 < r.count then
        (r.count, some { count := r.count - 1, expireAt := r.expireAt })
      else
        (r.count, some r)
  | none => (0, none)

/-- Embedding of _refund_script, the atomic refund script. -/
def refund (now : Nat) (s : Option CounterRecord) : Int × Option CounterRecord :=
  refundStep now (liveRecord now s)

/-- State of a key after n sequential check-and-charge calls with quota
(limit, window), the i-th call happening at time tau i, starting from an
absent record. -/
def stateAfter (limit window : Nat) (tau : Nat → Nat) : Nat → Option CounterRecord
  | 0 => none
  | n + 1 => (checkAndCharge limit window (tau n) (stateAfter limit window tau n)).2

/-- Return value of the (n+1)-th sequential check-and-charge call in the
schedule tau, starting from an absent record. -/
def resultAt (limit window : Nat) (tau : Nat → Nat) (n : Nat) : Nat :=
  (checkAndCharge limit window (tau n) (stateAfter limit window tau n)).1

/-- An operation the two scripts can perform on one key of the store,
paired (in applyOps) with the time at which it runs. -/
inductive StoreOp where
  | charge (limit window : Nat)
  | refundOp
  deriving DecidableEq

/-- Applies one script execution to the state of a key. -/
def applyOp (op : StoreOp) (now : Nat) (s : Option CounterRecord) :
    Option CounterRecord :=
  match op with
  | .charge limit window => (checkAndCharge limit window now s).2
  | .refundOp => (refund now s).2

/-- Applies a sequence of timed script executions to the state of a key. -/
def applyOps : List (StoreOp × Nat) → Option CounterRecord → Option CounterRecord
  | [], s => s
  | (op, t) :: rest, s => applyOps rest (applyOp op t s)

/-- The counter-record invariant: a stored record never holds a negative
count. -/
def nonnegCount (s : Option CounterRecord) : Prop :=
  ∀ r, s = some r → 0 ≤ r.count

/-- The decimal digit characters used by Python string formatting of a
nonnegative int (only values 0..9 occur for base-10 digits). -/
def digitChar (d : Nat) : Char :=
  if d = 0 then '0' else if d = 1 then '1' else if d = 2 then '2'
  else if d = 3 then '3' else if d = 4 then '4' else if d = 5 then '5'
  else if d = 6 then '6' else if d = 7 then '7' else if d = 8 then '8'
  else '9'

/-- Fuel-bounded accumulator loop producing the decimal digits of n, most
significant first, in front of acc; the fuel is always at least n so the
loop never runs out. -/
def natStrAux : Nat → Nat → List Char → List Char
  | 0, _, acc => acc
  | fuel + 1, n, acc =>
      if n = 0 then acc
      else natStrAux fuel (n / 10) (digitChar (n % 10) :: acc)

/-- Embedding of Python str() on a nonnegative int, as used by the
f-string that builds the rate-limit key: the decimal representation. -/
def natStr (n : Nat) : String :=
  if n = 0 then "0" else String.mk (natStrAux n n [])

/-- The scope key built by both the charge path and the refund path:
f"{prefix}:{rate_key}:{route_index}:{dep_index}". -/
def scopeKey (pfx rateKey : String) (routeIndex depIndex : Nat) : String :=
  pfx ++ ":" ++ rateKey ++ ":" ++ natStr routeIndex ++ ":" ++ natStr depIndex

/-- The websocket scope key: f"{prefix}:ws:{rate_key}:{context_key}". -/
def wsKey (pfx rateKey contextKey : String) : String :=
  pfx ++ ":ws:" ++ rateKey ++ ":" ++ contextKey

/-- A single-key scripted operation against the whole store: Redis runs
the script atomically on the addressed key and leaves every other key
untouched. -/
def applyAt (key : String) (f : Option CounterRecord → Option CounterRecord)
    (store : String → Option CounterRecord) : String → Option CounterRecord :=
  fun q => if q = key then f (store key) else store q

/-- The process-wide bypass configuration built by FastAPILimiter.init:
the hash function (sha256 hexdigest, abstracted as a string function),
the pre-hashed authorized_passwords, and the three lists of bypass source
names. -/
structure BypassConfig where
  hash : String → String
  authorized_passwords : List String
  query_param_names : List String
  bearer_token_headers : List String
  api_key_headers : List String

/-- The request data the bypass authenticator reads: query parameters and
headers as partial maps from name to value. -/
structure HttpReq where
  query_params : String → Option String
  headers : String → Option String

/-- Embedding of dict.get(name, ""): the value at name, or the empty
string when absent. -/
def getOrEmpty (f : String → Option String) (k : String) : String :=
  (f k).getD ""

/-- Embedding of secrets.compare_digest: constant-time comparison, whose
result is string equality. -/
def compareDigest (a b : String) : Bool := a == b

/-- Embedding of the bypass block of RateLimiter.__call__: for each
configured query parameter the value at that name, for each configured
bearer-token header the value at the header name with a space appended
(the code reads request.headers.get(header + " ", "")), and for each
configured api-key header the value at the header name, is hashed and
compared against every authorized password hash; any match returns. -/
def tryBypass (cfg : BypassConfig) (req : HttpReq) : Bool :=
  cfg.query_param_names.any (fun p =>
    cfg.authorized_passwords.any (fun pw =>
      compareDigest (cfg.hash (getOrEmpty req.query_params p)) pw))
  || cfg.bearer_token_headers.any (fun hd =>
      cfg.authorized_passwords.any (fun pw =>
        compareDigest (cfg.hash (getOrEmpty req.headers (hd ++ " "))) pw))
  || cfg.api_key_headers.any (fun hd =>
      cfg.authorized_passwords.any (fun pw =>
        compareDigest (cfg.hash (getOrEmpty req.headers hd)) pw))

/-- A route dependency as the refund path classifies it: a RateLimiter
instance (identified by Python object identity, modelled as lid, and
carrying its resolved per-request identifier override, if any), or any
other dependency (e.g. a ConditionalRateLimiter). -/
inductive DepKind where
  | rateLimiter (lid : Nat) (identifierOverride : Option String)
  | otherDep
  deriving DecidableEq

/-- A registered route: its path, its methods and its dependency list. -/
structure Route where
  path : String
  methods : List String
  dependencies : List DepKind
  deriving DecidableEq

/-- The route-matching test both scan loops use:
route.path == request path and request method in route.methods. -/
def routeMatches (path method : String) (r : Route) : Bool :=
  r.path == path && r.methods.contains method

/-- Embedding of the inner loop of the charge path: the first dependency
index j with self is dependency.dependency (object identity on lid). -/
def findSelfIndex (lid : Nat) : List DepKind → Nat → Option Nat
  | [], _ => none
  | DepKind.rateLimiter l _ :: rest, j =>
      if l = lid then some j else findSelfIndex lid rest (j + 1)
  | DepKind.otherDep :: rest, j => findSelfIndex lid rest (j + 1)

/-- Embedding of the route scan in RateLimiter.__call__: every matching
route overwrites route_index (the loop does not break), and dep_index is
overwritten only when self is found among that route's dependencies. -/
def chargeScan (lid : Nat) (path method : String) :
    List Route → Nat → Nat × Nat → Nat × Nat
  | [], _, acc => acc
  | r :: rs, i, acc =>
      chargeScan lid path method rs (i + 1)
        (if routeMatches path method r then
          (i, (findSelfIndex lid r.dependencies 0).getD acc.2)
        else acc)

/-- The (route_index, dep_index) pair the charge path derives, both
starting at 0. -/
def chargeIndices (routes : List Route) (path method : String) (lid : Nat) :
    Nat × Nat :=
  chargeScan lid path method routes 0 (0, 0)

/-- A RateLimiter instance: its object identity and its resolved
per-request identifier override (None means use the global identifier). -/
structure LimiterInst where
  lid : Nat
  identifierOverride : Option String
  deriving DecidableEq

/-- The scope key the charge path derives for a limiter instance: the
rate key comes from self.identifier or FastAPILimiter.identifier (gid is
the global identifier's resolved value for this request). -/
def chargeKey (pfx gid : String) (routes : List Route) (path method : String)
    (lim : LimiterInst) : String :=
  scopeKey pfx (lim.identifierOverride.getD gid)
    (chargeIndices routes path method lim.lid).1
    (chargeIndices routes path method lim.lid).2

/-- Embedding of the route scan in refund_rate_limit_for_request: the
first matching route (the loop breaks after it). -/
def findRoute (path method : String) : List Route → Nat → Option (Nat × Route)
  | [], _ => none
  | r :: rs, i =>
      if routeMatches path method r then some (i, r)
      else findRoute path method rs (i + 1)

/-- Keys refunded from one matching route: one per dependency whose class
name is exactly RateLimiter, always keyed with the global identifier. -/
def refundKeysAux (pfx gid : String) (i : Nat) : List DepKind → Nat → List String
  | [], _ => []
  | DepKind.rateLimiter _ _ :: rest, j =>
      scopeKey pfx gid i j :: refundKeysAux pfx gid i rest (j + 1)
  | DepKind.otherDep :: rest, j => refundKeysAux pfx gid i rest (j + 1)

/-- The full set of keys the refund path targets for a request: none when
no route matches. -/
def refundKeys (pfx gid : String) (routes : List Route) (path method : String) :
    List String :=
  match findRoute path method routes 0 with
  | none => []
  | some (i, r) => refundKeysAux pfx gid i r.dependencies 0

/-- Executes the refund script once per derived key against the store. -/
def runRefund (now : Nat) (keys : List String)
    (store : String → Option CounterRecord) : String → Option CounterRecord :=
  keys.foldl (fun st k => applyAt k (fun s => (refund now s).2) st) store

/-- Outcome of one HTTP limiter call. -/
inductive HttpOutcome where
  | bypassed
  | admitted
  | denied (pexpire : Nat)
  deriving DecidableEq

/-- Embedding of RateLimiter.__call__ after key derivation: consult the
bypass block first (only when enable_bypass); on no bypass, derive the
scope key and run the counter script on it, denying on a nonzero return. -/
def httpLimiterCall (cfg : BypassConfig) (lim : LimiterInst) (enableBypass : Bool)
    (req : HttpReq) (pfx gid : String) (routes : List Route) (path method : String)
    (limit window now : Nat) (store : String → Option CounterRecord) :
    HttpOutcome × (String → Option CounterRecord) :=
  if enableBypass && tryBypass cfg req then (.bypassed, store)
  else
    (if (checkAndCharge limit window now
          (store (chargeKey pfx gid routes path method lim))).1 = 0
      then .admitted
      else .denied (checkAndCharge limit window now
        (store (chargeKey pfx gid routes path method lim))).1,
     applyAt (chargeKey pfx gid routes path method lim)
       (fun _ => (checkAndCharge limit window now
         (store (chargeKey pfx gid routes path method lim))).2) store)

/-- Embedding of WebSocketRateLimiter.__call__: it takes the same
constructor state (including enable_bypass) and the message's request
data, but its body never reads them: it derives the ws scope key and runs
the counter script unconditionally. -/
def wsLimiterCall (cfg : BypassConfig) (enableBypass : Bool) (req : HttpReq)
    (pfx rateKey contextKey : String) (limit window now : Nat)
    (store : String → Option CounterRecord) :
    Nat × (String → Option CounterRecord) :=
  ((checkAndCharge limit window now (store (wsKey pfx rateKey contextKey))).1,
   applyAt (wsKey pfx rateKey contextKey)
     (fun _ => (checkAndCharge limit window now
       (store (wsKey pfx rateKey contextKey))).2) store)

/-- A store-side failure of one evalsha attempt. -/
inductive StoreErr where
  | noScript
  | connectionError
  deriving DecidableEq

/-- The store's reply to one evalsha attempt. -/
inductive StoreReply where
  | ok (value : Nat)
  | err (e : StoreErr)
  deriving DecidableEq

/-- The outcome of taking one reply at face value: its value, or its
error propagated. -/
def replyToResult : StoreReply → Except StoreErr Nat
  | .ok v => .ok v
  | .err e => .error e

/-- Embedding of the try/except around _check in RateLimiter.__call__:
except pyredis.exceptions.NoScriptError reloads the script and retries
once; the retry's outcome, and any other first error, propagates. -/
def httpCheckOnce (first second : StoreReply) : Except StoreErr Nat :=
  match first with
  | .ok v => .ok v
  | .err .noScript => replyToResult second
  | .err e => .error e

/-- Embedding of the _check call in WebSocketRateLimiter.__call__: there
is no try/except, so the single attempt's outcome is the call's outcome
and a second attempt is never consulted. -/
def wsCheckOnce (first second : StoreReply) : Except StoreErr Nat :=
  replyToResult first

/-- Embedding of the try/except around evalsha in
refund_rate_limit_for_request: the bare except catches every error,
reloads the script and retries once; the retry's outcome propagates. -/
def refundEvalOnce (first second : StoreReply) : Except StoreErr Nat :=
  match first with
  | .ok v => .ok v
  | .err _ => replyToResult second

/-- A stand-in concrete one-way hash for example configurations. -/
def exHash (s : String) : String := s ++ "#"

/-- Example configuration with one authorized secret and one bearer-token
header name. -/
def exCfgBearer : BypassConfig :=
  { hash := exHash
    authorized_passwords := [exHash "secret"]
    query_param_names := []
    bearer_token_headers := ["x-token"]
    api_key_headers := [] }

/-- Example request carrying the authorized secret at the configured
bearer-token header name. -/
def exReqBearer : HttpReq :=
  { query_params := fun _ => none
    headers := fun k => if k = "x-token" then some "secret" else none }

/-- Example request carrying the authorized secret at the header name
with a trailing space (the name the code actually reads). -/
def exReqBearerSpace : HttpReq :=
  { query_params := fun _ => none
    headers := fun k => if k = "x-token " then some "secret" else none }

/-- Example configuration with one authorized secret and one query
parameter name. -/
def exCfgQuery : BypassConfig :=
  { hash := exHash
    authorized_passwords := [exHash "pw"]
    query_param_names := ["password"]
    bearer_token_headers := []
    api_key_headers := [] }

/-- Example request carrying the authorized secret in the configured
query parameter. -/
def exReqQuery : HttpReq :=
  { query_params := fun k => if k = "password" then some "pw" else none
    headers := fun _ => none }

/-- Example route guarded by one RateLimiter whose identifier override
resolves to a value different from the global identifier's. -/
def exRouteOvr : Route :=
  { path := "/items"
    methods := ["GET"]
    dependencies := [DepKind.rateLimiter 0 (some "user-42")] }


section CoreLemmas

theorem liveRecord_none (now : Nat) : liveRecord now none = none := rfl

theorem liveRecord_some (now : Nat) (r : CounterRecord) :
    liveRecord now (some r) = if r.expireAt ≤ now then none else some r := rfl

theorem liveRecord_expired (now : Nat) (r : CounterRecord) (h : r.expireAt ≤ now) :
    liveRecord now (some r) = none := by
  rw [liveRecord_some, if_pos h]

theorem liveRecord_live (now : Nat) (r : CounterRecord) (h : now < r.expireAt) :
    liveRecord now (some r) = some r := by
  rw [liveRecord_some, if_neg (by omega)]

theorem chargeStep_some (limit window now : Nat) (r : CounterRecord) :
    chargeStep limit window now (some r) =
      if 0 < r.count then
        if (limit : Int) < r.count + 1 then
          (r.expireAt - now, some r)
        else
          (0, some { count := r.count + 1, expireAt := r.expireAt })
      else
        (0, some { count := 1, expireAt := now + window }) := rfl

theorem chargeStep_none (limit window now : Nat) :
    chargeStep limit window now none =
      (0, some { count := 1, expireAt := now + window }) := rfl

theorem refundStep_some (now : Nat) (r : CounterRecord) :
    refundStep now (some r) =
      if 0 < r.count then
        (r.count, some { count := r.count - 1, expireAt := r.expireAt })
      else
        (r.count, some r) := rfl

theorem refundStep_none (now : Nat) : refundStep now none = (0, none) := rfl

theorem liveRecord_some_elim {now : Nat} {s : Option CounterRecord}
    {r : CounterRecord} (h : liveRecord now s = some r) :
    s = some r ∧ now < r.expireAt := by
  cases s with
  | none => exact absurd h (by rw [liveRecord_none]; simp)
  | some q =>
      rw [liveRecord_some] at h
      by_cases he : q.expireAt ≤ now
      · rw [if_pos he] at h; exact absurd h (by simp)
      · rw [if_neg he] at h
        have hq : q = r := by injection h
        subst hq
        exact ⟨rfl, by omega⟩

theorem curCount_of_live {now : Nat} {s : Option CounterRecord}
    {r : CounterRecord} (h : liveRecord now s = some r) :
    curCount now s = r.count := by
  unfold curCount; rw [h]

theorem curCount_of_dead {now : Nat} {s : Option CounterRecord}
    (h : liveRecord now s = none) : curCount now s = 0 := by
  unfold curCount; rw [h]

theorem curCount_some_live {now : Nat} {c : Int} {e : Nat} (h : now < e) :
    curCount now (some ⟨c, e⟩) = c :=
  curCount_of_live (liveRecord_live now ⟨c, e⟩ h)

end CoreLemmas

section StepTheorems

/-- C2: one execution of checkAndCharge performs exactly this state
transformation: live count absent or 0 means SET to 1 with expiry =
windowMillis (from now) and return 0; live count positive with count + 1
<= limit means INCR leaving the expiry unchanged and return 0; live count
positive with count + 1 > limit means return the record's remaining
time-to-live and leave count and expiry unchanged. -/
theorem checkAndCharge_step (limit window now : Nat) (s : Option CounterRecord) :
    (curCount now s = 0 →
      checkAndCharge limit window now s = (0, some ⟨1, now + window⟩)) ∧
    (∀ r, liveRecord now s = some r → 0 < r.count → r.count + 1 ≤ (limit : Int) →
      checkAndCharge limit window now s = (0, some ⟨r.count + 1, r.expireAt⟩)) ∧
    (∀ r, liveRecord now s = some r → 0 < r.count → (limit : Int) < r.count + 1 →
      checkAndCharge limit window now s = (r.expireAt - now, some r)) := by
  refine ⟨?_, ?_, ?_⟩
  · intro h
    unfold checkAndCharge
    cases hl : liveRecord now s with
    | none => rw [chargeStep_none]
    | some r =>
        have hc : r.count = 0 := by
          have := curCount_of_live hl
          omega
        rw [chargeStep_some, if_neg (by omega)]
  · intro r hl hpos hle
    unfold checkAndCharge
    rw [hl, chargeStep_some, if_pos hpos, if_neg (not_lt.mpr hle)]
  · intro r hl hpos hgt
    unfold checkAndCharge
    rw [hl, chargeStep_some, if_pos hpos, if_pos hgt]

theorem checkAndCharge_step_witness :
    checkAndCharge 5 100 0 none = (0, some ⟨1, 100⟩) ∧
    checkAndCharge 5 100 3 (some ⟨2, 50⟩) = (0, some ⟨3, 50⟩) ∧
    checkAndCharge 2 100 3 (some ⟨2, 50⟩) = (47, some ⟨2, 50⟩) := by
  have hlive : liveRecord 3 (some (⟨2, 50⟩ : CounterRecord)) = some ⟨2, 50⟩ :=
    liveRecord_live 3 ⟨2, 50⟩ (by decide)
  refine ⟨(checkAndCharge_step 5 100 0 none).1 rfl, ?_, ?_⟩
  · have h := (checkAndCharge_step 5 100 3 (some ⟨2, 50⟩)).2.1 ⟨2, 50⟩ hlive
      (by decide) (by decide)
    simpa using h
  · have h := (checkAndCharge_step 2 100 3 (some ⟨2, 50⟩)).2.2 ⟨2, 50⟩ hlive
      (by decide) (by decide)
    simpa using h

/-- C5: one execution of refund returns the count as it was before the
call; when that count is positive the count is decremented by 1 (the
expiry kept), otherwise the record is left untouched; a nonnegative count
never becomes negative. -/
theorem refund_step (now : Nat) (s : Option CounterRecord) :
    (refund now s).1 = curCount now s ∧
    (0 < curCount now s →
      curCount now (refund now s).2 = curCount now s - 1) ∧
    (curCount now s ≤ 0 → (refund now s).2 = liveRecord now s) ∧
    (0 ≤ curCount now s → 0 ≤ curCount now (refund now s).2) := by
  cases hl : liveRecord now s with
  | none =>
      have hrf : refund now s = (0, none) := by
        unfold refund; rw [hl, refundStep_none]
      have hc := curCount_of_dead hl
      rw [hrf, hc]
      exact ⟨rfl, by omega, fun _ => rfl,
        fun _ => by rw [curCount_of_dead (liveRecord_none now)]⟩
  | some r =>
      have hc := curCount_of_live hl
      have hlv := (liveRecord_some_elim hl).2
      by_cases hpos : 0 < r.count
      · have hrf : refund now s = (r.count, some ⟨r.count - 1, r.expireAt⟩) := by
          unfold refund; rw [hl, refundStep_some, if_pos hpos]
        rw [hrf, hc]
        refine ⟨rfl, fun _ => ?_, fun hle => absurd hpos (by omega), fun _ => ?_⟩
        · rw [curCount_some_live hlv]
        · rw [curCount_some_live hlv]; omega
      · have hrf : refund now s = (r.count, some r) := by
          unfold refund; rw [hl, refundStep_some, if_neg hpos]
        rw [hrf, hc]
        refine ⟨rfl, fun h => absurd h hpos, fun _ => rfl, fun h => ?_⟩
        rw [curCount_of_live (liveRecord_live now r hlv)]
        exact h

theorem refund_step_witness :
    (refund 3 (some ⟨2, 10⟩)).1 = 2 ∧
    curCount 3 (refund 3 (some ⟨2, 10⟩)).2 = 1 ∧
    (refund 3 (some ⟨0, 10⟩)).2 = liveRecord 3 (some ⟨0, 10⟩) ∧
    0 ≤ curCount 3 (refund 3 (some ⟨2, 10⟩)).2 := by
  have h1 := refund_step 3 (some ⟨2, 10⟩)
  have h2 := refund_step 3 (some ⟨0, 10⟩)
  have hc : curCount 3 (some (⟨2, 10⟩ : CounterRecord)) = 2 :=
    curCount_some_live (by omega)
  have hc0 : curCount 3 (some (⟨0, 10⟩ : CounterRecord)) = 0 :=
    curCount_some_live (by omega)
  refine ⟨by rw [h1.1, hc], ?_, h2.2.2.1 (by rw [hc0]), h1.2.2.2 (by rw [hc]; decide)⟩
  have := h1.2.1 (by rw [hc]; decide)
  rw [hc] at this
  simpa using this

/-- C7: for every limit, including limit = 0, a checkAndCharge call on a
key whose live count is absent or 0 is admitted (returns 0) and sets the
count to 1 with a fresh expiry: the SET branch never consults the limit. -/
theorem checkAndCharge_fresh_admits (limit window now : Nat)
    (s : Option CounterRecord) (h : curCount now s = 0) :
    checkAndCharge limit window now s = (0, some ⟨1, now + window⟩) := by
  unfold checkAndCharge
  cases hl : liveRecord now s with
  | none => rw [chargeStep_none]
  | some r =>
      have hc : r.count = 0 := by
        have := curCount_of_live hl
        omega
      rw [chargeStep_some, if_neg (by omega)]

theorem checkAndCharge_fresh_admits_witness :
    checkAndCharge 0 7 0 none = (0, some ⟨1, 7⟩) :=
  checkAndCharge_fresh_admits 0 7 0 none rfl

end StepTheorems

section WindowTheorems

theorem stateAfter_zero (L W : Nat) (tau : Nat → Nat) :
    stateAfter L W tau 0 = none := rfl

theorem stateAfter_succ (L W : Nat) (tau : Nat → Nat) (n : Nat) :
    stateAfter L W tau (n + 1)
      = (checkAndCharge L W (tau n) (stateAfter L W tau n)).2 := rfl

theorem stateAfter_eq_of_le (L W : Nat) (tau : Nat → Nat)
    (htau : ∀ i, i ≤ L → tau 0 ≤ tau i ∧ tau i < tau 0 + W) :
    ∀ n, 1 ≤ n → n ≤ L → stateAfter L W tau n = some ⟨(n : Int), tau 0 + W⟩ := by
  intro n
  induction n with
  | zero => intro h; omega
  | succ n ih =>
      intro h1 hle
      rw [stateAfter_succ]
      by_cases hn : n = 0
      · subst hn
        rw [stateAfter_zero]
        unfold checkAndCharge
        rw [liveRecord_none, chargeStep_none]
        norm_num
      · have hst := ih (by omega) (by omega)
        rw [hst]
        unfold checkAndCharge
        have hlv : tau n < tau 0 + W := (htau n (by omega)).2
        rw [liveRecord_live _ _ (by exact hlv), chargeStep_some,
          if_pos (by simp only; omega), if_neg (by simp only; omega)]
        simp only
        norm_num

/-- C1: for limit L >= 1 and window W > 0, starting from an absent
counter, the first L sequential checkAndCharge calls inside one W-length
window (call i at time tau i, all within [tau 0, tau 0 + W)) each return
0, and call L + 1 in the same window returns a value strictly greater
than 0 and at most W. -/
theorem checkAndCharge_quota_window (L W : Nat) (tau : Nat → Nat)
    (hL : 1 ≤ L) (hW : 0 < W)
    (htau : ∀ i, i ≤ L → tau 0 ≤ tau i ∧ tau i < tau 0 + W) :
    (∀ i, i < L → resultAt L W tau i = 0) ∧
    0 < resultAt L W tau L ∧ resultAt L W tau L ≤ W := by
  refine ⟨?_, ?_⟩
  · intro i hi
    unfold resultAt
    by_cases h0 : i = 0
    · subst h0
      rw [stateAfter_zero]
      unfold checkAndCharge
      rw [liveRecord_none, chargeStep_none]
    · rw [stateAfter_eq_of_le L W tau htau i (by omega) (by omega)]
      unfold checkAndCharge
      have hlv : tau i < tau 0 + W := (htau i (by omega)).2
      rw [liveRecord_live _ _ (by exact hlv), chargeStep_some,
        if_pos (by simp only; omega), if_neg (by simp only; omega)]
  · unfold resultAt
    rw [stateAfter_eq_of_le L W tau htau L hL (by omega)]
    unfold checkAndCharge
    have hlo : tau 0 ≤ tau L := (htau L (by omega)).1
    have hlv : tau L < tau 0 + W := (htau L (by omega)).2
    rw [liveRecord_live _ _ (by exact hlv), chargeStep_some,
      if_pos (by simp only; omega), if_pos (by simp only; omega)]
    simp only
    omega

theorem checkAndCharge_quota_window_witness :
    resultAt 2 5 (fun i => i) 0 = 0 ∧
    resultAt 2 5 (fun i => i) 1 = 0 ∧
    0 < resultAt 2 5 (fun i => i) 2 ∧
    resultAt 2 5 (fun i => i) 2 ≤ 5 := by
  have h := checkAndCharge_quota_window 2 5 (fun i => i) (by omega) (by omega)
    (fun i hi => ⟨Nat.zero_le i, by show i < 0 + 5; omega⟩)
  exact ⟨h.1 0 (by omega), h.1 1 (by omega), h.2.1, h.2.2⟩

end WindowTheorems

section InvariantTheorems

theorem nonnegCount_none : nonnegCount none := by
  intro r hr; simp at hr

theorem nonnegCount_some {c : Int} {e : Nat} (h : 0 ≤ c) :
    nonnegCount (some ⟨c, e⟩) := by
  intro r hr
  injection hr with h2
  subst h2
  exact h

theorem nonnegCount_liveRecord (now : Nat) {s : Option CounterRecord}
    (h : nonnegCount s) : nonnegCount (liveRecord now s) := by
  cases s with
  | none => exact nonnegCount_none
  | some r =>
      rw [liveRecord_some]
      by_cases he : r.expireAt ≤ now
      · rw [if_pos he]; exact nonnegCount_none
      · rw [if_neg he]; exact h

theorem nonnegCount_charge (limit window now : Nat) {s : Option CounterRecord}
    (h : nonnegCount s) : nonnegCount (checkAndCharge limit window now s).2 := by
  unfold checkAndCharge
  have hlv := nonnegCount_liveRecord now h
  cases hl : liveRecord now s with
  | none => rw [chargeStep_none]; exact nonnegCount_some (by omega)
  | some r =>
      rw [hl] at hlv
      have hr : 0 ≤ r.count := hlv r rfl
      rw [chargeStep_some]
      by_cases hpos : 0 < r.count
      · rw [if_pos hpos]
        by_cases hgt : (limit : Int) < r.count + 1
        · rw [if_pos hgt]; exact hlv
        · rw [if_neg hgt]; exact nonnegCount_some (by omega)
      · rw [if_neg hpos]; exact nonnegCount_some (by omega)

theorem nonnegCount_refund (now : Nat) {s : Option CounterRecord}
    (h : nonnegCount s) : nonnegCount (refund now s).2 := by
  unfold refund
  have hlv := nonnegCount_liveRecord now h
  cases hl : liveRecord now s with
  | none => rw [refundStep_none]; exact nonnegCount_none
  | some r =>
      rw [hl] at hlv
      have hr : 0 ≤ r.count := hlv r rfl
      rw [refundStep_some]
      by_cases hpos : 0 < r.count
      · rw [if_pos hpos]; exact nonnegCount_some (by omega)
      · rw [if_neg hpos]; exact hlv

theorem applyOps_cons (op : StoreOp) (t : Nat) (rest : List (StoreOp × Nat))
    (s : Option CounterRecord) :
    applyOps ((op, t) :: rest) s = applyOps rest (applyOp op t s) := rfl

theorem nonnegCount_applyOps (ops : List (StoreOp × Nat)) :
    ∀ s : Option CounterRecord, nonnegCount s → nonnegCount (applyOps ops s) := by
  induction ops with
  | nil => intro s h; exact h
  | cons p rest ih =>
      intro s h
      obtain ⟨op, t⟩ := p
      rw [applyOps_cons]
      refine ih _ ?_
      cases op with
      | charge limit window => exact nonnegCount_charge limit window t h
      | refundOp => exact nonnegCount_refund t h

theorem curCount_zero_record (t e : Nat) : curCount t (some ⟨0, e⟩) = 0 := by
  by_cases he : e ≤ t
  · exact curCount_of_dead (liveRecord_expired t ⟨0, e⟩ he)
  · exact curCount_some_live (by omega)

/-- C8: the counter-record invariant count >= 0 is preserved by every
sequence of checkAndCharge and refund executions; an expired record
behaves exactly like an absent one under both scripts; and a live record
with count 0 behaves like an absent one: same charge transformation, and
the same refund return value and observable count afterwards. -/
theorem counter_nonneg_invariant (ops : List (StoreOp × Nat))
    (s : Option CounterRecord) (hs : nonnegCount s) :
    nonnegCount (applyOps ops s) ∧
    (∀ (limit window now : Nat) (r : CounterRecord), r.expireAt ≤ now →
      checkAndCharge limit window now (some r) = checkAndCharge limit window now none ∧
      refund now (some r) = refund now none) ∧
    (∀ limit window now e : Nat,
      checkAndCharge limit window now (some ⟨0, e⟩)
        = checkAndCharge limit window now none) ∧
    (∀ now t e : Nat,
      (refund now (some ⟨0, e⟩)).1 = (refund now none).1 ∧
      curCount t (refund now (some ⟨0, e⟩)).2
        = curCount t (refund now none).2) := by
  refine ⟨nonnegCount_applyOps ops s hs, ?_, ?_, ?_⟩
  · intro limit window now r h
    constructor
    · unfold checkAndCharge
      rw [liveRecord_expired now r h, liveRecord_none]
    · unfold refund
      rw [liveRecord_expired now r h, liveRecord_none]
  · intro limit window now e
    by_cases he : e ≤ now
    · unfold checkAndCharge
      rw [liveRecord_expired now ⟨0, e⟩ he, liveRecord_none]
    · unfold checkAndCharge
      rw [liveRecord_live now ⟨0, e⟩ (by show now < e; omega), liveRecord_none,
        chargeStep_some, chargeStep_none, if_neg (by simp)]
  · intro now t e
    by_cases he : e ≤ now
    · unfold refund
      rw [liveRecord_expired now ⟨0, e⟩ he, liveRecord_none]
      exact ⟨rfl, rfl⟩
    · have hrf : refund now (some ⟨0, e⟩) = (0, some ⟨0, e⟩) := by
        unfold refund
        rw [liveRecord_live now ⟨0, e⟩ (by show now < e; omega), refundStep_some,
          if_neg (by simp)]
      have hrn : refund now none = (0, none) := by
        unfold refund
        rw [liveRecord_none, refundStep_none]
      rw [hrf, hrn]
      refine ⟨rfl, ?_⟩
      rw [curCount_zero_record, curCount_of_dead (liveRecord_none t)]

theorem counter_nonneg_invariant_witness :
    nonnegCount (applyOps [(StoreOp.charge 2 5, 0), (StoreOp.refundOp, 1)] none) ∧
    checkAndCharge 2 5 6 (some ⟨3, 4⟩) = checkAndCharge 2 5 6 none := by
  have h := counter_nonneg_invariant [(StoreOp.charge 2 5, 0), (StoreOp.refundOp, 1)]
    none nonnegCount_none
  exact ⟨h.1, (h.2.1 2 5 6 ⟨3, 4⟩ (by decide)).1⟩

end InvariantTheorems

section BypassTheorems

/-- C3 fails on the code for bearer-token headers: the code reads the
header name with a trailing space appended, so a request carrying an
authorized secret at the configured header name does not bypass (and is
charged), while the claim's extraction at the configured name itself
hashes into the authorized set; a request carrying the secret at the
name-with-trailing-space does bypass. -/
theorem bypass_bearer_space_divergence :
    tryBypass exCfgBearer exReqBearer = false ∧
    exCfgBearer.hash (getOrEmpty exReqBearer.headers "x-token")
      ∈ exCfgBearer.authorized_passwords ∧
    tryBypass exCfgBearer exReqBearerSpace = true ∧
    (httpLimiterCall exCfgBearer ⟨0, none⟩ true exReqBearer "p" "gid" [] "/items"
      "GET" 1 1000 0 (fun _ => none)).1 ≠ HttpOutcome.bypassed := by
  decide

end BypassTheorems

section RetryTheorems

/-- C6 counterexample: on the websocket path a script-not-found error is
not retried (the claim says every path retries once), and on the refund
path an error other than script-not-found is retried rather than
propagated (the claim says it propagates as a hard error). -/
theorem scriptReload_counterexample :
    wsCheckOnce (StoreReply.err StoreErr.noScript) (StoreReply.ok 0)
      = Except.error StoreErr.noScript ∧
    refundEvalOnce (StoreReply.err StoreErr.connectionError) (StoreReply.ok 0)
      = Except.ok 0 :=
  ⟨rfl, rfl⟩

/-- C6 amended: the HTTP limiter path retries exactly once on
script-not-found and propagates any other first error; the websocket path
propagates every first error with no retry; the refund path retries
exactly once on any first error; in every retrying path the retry's
outcome (including its failure) propagates. -/
theorem scriptReload_retry (second : StoreReply) (v : Nat) (e : StoreErr) :
    httpCheckOnce (StoreReply.ok v) second = Except.ok v ∧
    httpCheckOnce (StoreReply.err StoreErr.noScript) second = replyToResult second ∧
    (e ≠ StoreErr.noScript →
      httpCheckOnce (StoreReply.err e) second = Except.error e) ∧
    wsCheckOnce (StoreReply.ok v) second = Except.ok v ∧
    wsCheckOnce (StoreReply.err e) second = Except.error e ∧
    refundEvalOnce (StoreReply.ok v) second = Except.ok v ∧
    refundEvalOnce (StoreReply.err e) second = replyToResult second := by
  refine ⟨rfl, rfl, ?_, rfl, rfl, rfl, rfl⟩
  intro he
  cases e with
  | noScript => exact absurd rfl he
  | connectionError => rfl

theorem scriptReload_retry_witness :
    httpCheckOnce (StoreReply.err StoreErr.connectionError) (StoreReply.ok 3)
      = Except.error StoreErr.connectionError ∧
    httpCheckOnce (StoreReply.err StoreErr.noScript) (StoreReply.ok 3)
      = Except.ok 3 := by
  have h := scriptReload_retry (StoreReply.ok 3) 7 StoreErr.connectionError
  exact ⟨h.2.2.1 (by decide), h.2.1⟩

end RetryTheorems

section KeyTheorems

theorem natStrAux_eq (fuel : Nat) : ∀ n acc, n ≤ fuel →
    natStrAux fuel n acc = ((Nat.digits 10 n).map digitChar).reverse ++ acc := by
  induction fuel with
  | zero =>
      intro n acc h
      have hn : n = 0 := by omega
      subst hn
      rw [show natStrAux 0 0 acc = acc from rfl, Nat.digits_zero]
      simp
  | succ fuel ih =>
      intro n acc h
      by_cases hn : n = 0
      · subst hn
        rw [show natStrAux (fuel + 1) 0 acc = acc from rfl, Nat.digits_zero]
        simp
      · have hstep : natStrAux (fuel + 1) n acc
            = natStrAux fuel (n / 10) (digitChar (n % 10) :: acc) := by
          show (if n = 0 then acc
            else natStrAux fuel (n / 10) (digitChar (n % 10) :: acc)) = _
          rw [if_neg hn]
        have hdiv : n / 10 ≤ fuel := by
          have hlt : n / 10 < n := Nat.div_lt_self (Nat.pos_of_ne_zero hn) (by omega)
          omega
        rw [hstep, ih (n / 10) _ hdiv,
          Nat.digits_def' (by norm_num : (1 : Nat) < 10) (Nat.pos_of_ne_zero hn)]
        simp [List.append_assoc]

theorem natStr_data (n : Nat) : (natStr n).data =
    if n = 0 then [Char.ofNat 48] else ((Nat.digits 10 n).map digitChar).reverse := by
  unfold natStr
  by_cases hn : n = 0
  · rw [if_pos hn, if_pos hn]
  · rw [if_neg hn, if_neg hn,
      show (String.mk (natStrAux n n [])).data = natStrAux n n [] from rfl,
      natStrAux_eq n n [] (le_refl n)]
    simp

theorem digitChar_inj_lt {a b : Nat} (ha : a < 10) (hb : b < 10)
    (h : digitChar a = digitChar b) : a = b := by
  have hfin : ∀ x y : Fin 10, digitChar x.val = digitChar y.val → x = y := by decide
  exact congrArg Fin.val (hfin ⟨a, ha⟩ ⟨b, hb⟩ h)

theorem digitChar_ne_colon (d : Nat) : digitChar d ≠ ':' := by
  unfold digitChar
  repeat' split
  all_goals decide

theorem natStr_no_colon (n : Nat) : ∀ c ∈ (natStr n).data, c ≠ ':' := by
  intro c hc
  rw [natStr_data] at hc
  by_cases hn : n = 0
  · rw [if_pos hn] at hc
    simp at hc
    subst hc
    decide
  · rw [if_neg hn, List.mem_reverse] at hc
    obtain ⟨d, hd, rfl⟩ := List.mem_map.mp hc
    exact digitChar_ne_colon d

theorem map_digitChar_inj : ∀ xs ys : List Nat, (∀ x ∈ xs, x < 10) →
    (∀ y ∈ ys, y < 10) → xs.map digitChar = ys.map digitChar → xs = ys := by
  intro xs
  induction xs with
  | nil =>
      intro ys _ _ h
      cases ys with
      | nil => rfl
      | cons y t => simp at h
  | cons x xt ih =>
      intro ys hx hy h
      cases ys with
      | nil => simp at h
      | cons y yt =>
          rw [List.map_cons, List.map_cons] at h
          injection h with h1 h2
          have hxy := digitChar_inj_lt (hx x (by simp)) (hy y (by simp)) h1
          subst hxy
          rw [ih yt (fun z hz => hx z (by simp [hz]))
            (fun z hz => hy z (by simp [hz])) h2]

theorem natStr_rev_ne_zero {n : Nat} (hn : n ≠ 0) :
    ((Nat.digits 10 n).map digitChar).reverse ≠ [Char.ofNat 48] := by
  intro h
  have hmap : (Nat.digits 10 n).map digitChar = [Char.ofNat 48] := by
    have := congrArg List.reverse h
    simpa using this
  cases hdg : Nat.digits 10 n with
  | nil => rw [hdg] at hmap; simp at hmap
  | cons d t =>
      rw [hdg, List.map_cons] at hmap
      cases t with
      | cons _ _ => simp at hmap
      | nil =>
          have hd0 : digitChar d = Char.ofNat 48 := by
            injection hmap
          have hdlt : d < 10 :=
            Nat.digits_lt_base (by norm_num) (by rw [hdg]; simp)
          have : d = 0 :=
            digitChar_inj_lt hdlt (by norm_num) (hd0.trans (by decide))
          subst this
          have := Nat.ofDigits_digits 10 n
          rw [hdg] at this
          simp [Nat.ofDigits] at this
          exact hn this.symm

theorem natStr_inj {m n : Nat} (h : natStr m = natStr n) : m = n := by
  have hd : (natStr m).data = (natStr n).data := congrArg String.data h
  rw [natStr_data, natStr_data] at hd
  by_cases hm : m = 0 <;> by_cases hn : n = 0
  · omega
  · rw [if_pos hm, if_neg hn] at hd
    exact absurd hd.symm (natStr_rev_ne_zero hn)
  · rw [if_neg hm, if_pos hn] at hd
    exact absurd hd (natStr_rev_ne_zero hm)
  · rw [if_neg hm, if_neg hn] at hd
    have hmap : (Nat.digits 10 m).map digitChar = (Nat.digits 10 n).map digitChar := by
      have := congrArg List.reverse hd
      simpa using this
    have hdig := map_digitChar_inj _ _
      (fun x hx => Nat.digits_lt_base (by norm_num) hx)
      (fun y hy => Nat.digits_lt_base (by norm_num) hy) hmap
    exact Nat.digits.injective 10 hdig

theorem sdata_append (a b : String) : (a ++ b).data = a.data ++ b.data := by
  cases a; cases b; rfl

theorem sdata_inj {a b : String} (h : a.data = b.data) : a = b := by
  cases a; cases b; exact congrArg String.mk h

theorem colon_split : ∀ xs xs2 ys ys2 : List Char, (∀ c ∈ xs, c ≠ ':') →
    (∀ c ∈ xs2, c ≠ ':') → xs ++ ':' :: ys = xs2 ++ ':' :: ys2 →
    xs = xs2 ∧ ys = ys2 := by
  intro xs
  induction xs with
  | nil =>
      intro xs2 ys ys2 hx hx2 h
      cases xs2 with
      | nil => simp at h; exact ⟨rfl, h⟩
      | cons b bs =>
          rw [List.nil_append, List.cons_append] at h
          injection h with h1 h2
          exact absurd h1.symm (hx2 b (by simp))
  | cons a as ih =>
      intro xs2 ys ys2 hx hx2 h
      cases xs2 with
      | nil =>
          rw [List.cons_append, List.nil_append] at h
          injection h with h1 h2
          exact absurd h1 (hx a (by simp))
      | cons b bs =>
          rw [List.cons_append, List.cons_append] at h
          injection h with h1 h2
          obtain ⟨hab, hy⟩ := ih bs ys ys2 (fun c hc => hx c (by simp [hc]))
            (fun c hc => hx2 c (by simp [hc])) h2
          exact ⟨by rw [h1, hab], hy⟩

theorem colonData : (":" : String).data = [':'] := rfl

theorem scopeKey_data (pfx rateKey : String) (ri di : Nat) :
    (scopeKey pfx rateKey ri di).data
      = pfx.data ++ ':' :: (rateKey.data ++ ':' ::
          ((natStr ri).data ++ ':' :: (natStr di).data)) := by
  unfold scopeKey
  simp [sdata_append, colonData, List.append_assoc]

theorem scopeKey_inj {pfx rateKey : String} {ri di ri2 di2 : Nat}
    (h : scopeKey pfx rateKey ri di = scopeKey pfx rateKey ri2 di2) :
    ri = ri2 ∧ di = di2 := by
  have hd := congrArg String.data h
  rw [scopeKey_data, scopeKey_data] at hd
  have h1 := List.append_cancel_left hd
  injection h1 with h1a h2
  have h3 := List.append_cancel_left h2
  injection h3 with h3a h4
  obtain ⟨ha, hb⟩ := colon_split _ _ _ _ (natStr_no_colon ri) (natStr_no_colon ri2) h4
  exact ⟨natStr_inj (sdata_inj ha), natStr_inj (sdata_inj hb)⟩

/-- C9: for one identifier (and prefix), the scope key determines the
(endpointIndex, limiterIndex) pair: two limiter instances on the same
endpoint with distinct limiter indices get distinct keys, the same
identifier on two distinct endpoints gets distinct keys, and a scripted
operation on one key leaves every other key's count untouched, so the
counters are independent. -/
theorem scopeKey_independent :
    (∀ (pfx rateKey : String) (ri di ri2 di2 : Nat),
      scopeKey pfx rateKey ri di = scopeKey pfx rateKey ri2 di2 →
      ri = ri2 ∧ di = di2) ∧
    (∀ (pfx rateKey : String) (ri di di2 : Nat), di ≠ di2 →
      scopeKey pfx rateKey ri di ≠ scopeKey pfx rateKey ri di2) ∧
    (∀ (pfx rateKey : String) (ri ri2 di di2 : Nat), ri ≠ ri2 →
      scopeKey pfx rateKey ri di ≠ scopeKey pfx rateKey ri2 di2) ∧
    (∀ (k k2 : String) (f : Option CounterRecord → Option CounterRecord)
      (store : String → Option CounterRecord), k2 ≠ k →
      applyAt k f store k2 = store k2) := by
  refine ⟨fun _ _ _ _ _ _ h => scopeKey_inj h, ?_, ?_, ?_⟩
  · intro pfx rateKey ri di di2 hne h
    exact hne (scopeKey_inj h).2
  · intro pfx rateKey ri ri2 di di2 hne h
    exact hne (scopeKey_inj h).1
  · intro k k2 f store hne
    unfold applyAt
    rw [if_neg hne]

theorem scopeKey_independent_witness :
    scopeKey "fastapi-limiter" "1.2.3.4:/items" 0 0
      ≠ scopeKey "fastapi-limiter" "1.2.3.4:/items" 0 1 ∧
    scopeKey "fastapi-limiter" "1.2.3.4:/items" 0 0
      ≠ scopeKey "fastapi-limiter" "1.2.3.4:/items" 1 0 ∧
    applyAt (scopeKey "p" "r" 0 0) (fun _ => some ⟨1, 5⟩) (fun _ => none)
      (scopeKey "p" "r" 0 1) = none := by
  have h := scopeKey_independent
  exact ⟨h.2.1 _ _ 0 0 1 (by decide), h.2.2.1 _ _ 0 1 0 0 (by decide),
    h.2.2.2 _ _ _ _ (by decide)⟩

end KeyTheorems

section RefundPathTheorems

theorem chargeScan_cons (lid : Nat) (path method : String) (r : Route)
    (rs : List Route) (i : Nat) (acc : Nat × Nat) :
    chargeScan lid path method (r :: rs) i acc
      = chargeScan lid path method rs (i + 1)
        (if routeMatches path method r then
          (i, (findSelfIndex lid r.dependencies 0).getD acc.2)
        else acc) := rfl

theorem chargeScan_nomatch (lid : Nat) (path method : String) :
    ∀ (rs : List Route) (i : Nat) (acc : Nat × Nat),
    (∀ r ∈ rs, routeMatches path method r = false) →
    chargeScan lid path method rs i acc = acc := by
  intro rs
  induction rs with
  | nil => intro i acc h; rfl
  | cons r rest ih =>
      intro i acc h
      rw [chargeScan_cons, if_neg (by simp [h r (by simp)])]
      exact ih (i + 1) acc (fun q hq => h q (by simp [hq]))

theorem chargeScan_found (lid : Nat) (path method : String) (r : Route)
    (hm : routeMatches path method r = true) (post : List Route)
    (hpost : ∀ q ∈ post, routeMatches path method q = false) :
    ∀ pre : List Route, (∀ q ∈ pre, routeMatches path method q = false) →
    ∀ (i : Nat) (acc : Nat × Nat),
    chargeScan lid path method (pre ++ r :: post) i acc
      = (i + pre.length, (findSelfIndex lid r.dependencies 0).getD acc.2) := by
  intro pre
  induction pre with
  | nil =>
      intro hpre i acc
      rw [List.nil_append, chargeScan_cons, if_pos hm,
        chargeScan_nomatch lid path method post (i + 1) _ hpost]
      simp
  | cons q pres ih =>
      intro hpre i acc
      rw [List.cons_append, chargeScan_cons, if_neg (by simp [hpre q (by simp)]),
        ih (fun z hz => hpre z (by simp [hz])) (i + 1) acc]
      simp only [List.length_cons]
      congr 1
      omega

theorem findRoute_step (path method : String) (r : Route) (rs : List Route) (i : Nat) :
    findRoute path method (r :: rs) i
      = if routeMatches path method r then some (i, r)
        else findRoute path method rs (i + 1) := rfl

theorem findRoute_found (path method : String) (r : Route)
    (hm : routeMatches path method r = true) :
    ∀ pre : List Route, (∀ q ∈ pre, routeMatches path method q = false) →
    ∀ (post : List Route) (i : Nat),
    findRoute path method (pre ++ r :: post) i = some (i + pre.length, r) := by
  intro pre
  induction pre with
  | nil =>
      intro hpre post i
      rw [List.nil_append, findRoute_step, if_pos hm]
      simp
  | cons q pres ih =>
      intro hpre post i
      rw [List.cons_append, findRoute_step, if_neg (by simp [hpre q (by simp)]),
        ih (fun z hz => hpre z (by simp [hz])) post (i + 1)]
      simp only [List.length_cons]
      congr 2
      omega

theorem findSelfIndex_rl (lid l : Nat) (o : Option String) (rest : List DepKind)
    (j : Nat) :
    findSelfIndex lid (DepKind.rateLimiter l o :: rest) j
      = if l = lid then some j else findSelfIndex lid rest (j + 1) := rfl

theorem findSelfIndex_other (lid : Nat) (rest : List DepKind) (j : Nat) :
    findSelfIndex lid (DepKind.otherDep :: rest) j
      = findSelfIndex lid rest (j + 1) := rfl

theorem refundKeysAux_rl (pfx gid : String) (i l : Nat) (o : Option String)
    (rest : List DepKind) (j : Nat) :
    refundKeysAux pfx gid i (DepKind.rateLimiter l o :: rest) j
      = scopeKey pfx gid i j :: refundKeysAux pfx gid i rest (j + 1) := rfl

theorem refundKeysAux_other (pfx gid : String) (i : Nat) (rest : List DepKind)
    (j : Nat) :
    refundKeysAux pfx gid i (DepKind.otherDep :: rest) j
      = refundKeysAux pfx gid i rest (j + 1) := rfl

theorem refundKeysAux_mem (pfx gid : String) (i lid : Nat) :
    ∀ (deps : List DepKind) (j0 j : Nat), findSelfIndex lid deps j0 = some j →
    scopeKey pfx gid i j ∈ refundKeysAux pfx gid i deps j0 := by
  intro deps
  induction deps with
  | nil =>
      intro j0 j h
      exact absurd h (by rw [show findSelfIndex lid [] j0 = none from rfl]; simp)
  | cons d rest ih =>
      intro j0 j h
      cases d with
      | rateLimiter l o =>
          rw [findSelfIndex_rl] at h
          rw [refundKeysAux_rl]
          by_cases hl : l = lid
          · rw [if_pos hl] at h
            injection h with h1
            rw [← h1]
            exact List.mem_cons_self _ _
          · rw [if_neg hl] at h
            exact List.mem_cons_of_mem _ (ih (j0 + 1) j h)
      | otherDep =>
          rw [findSelfIndex_other] at h
          rw [refundKeysAux_other]
          exact ih (j0 + 1) j h

theorem refundKeys_found {path method pfx gid : String} {routes : List Route}
    {i : Nat} {r : Route} (h : findRoute path method routes 0 = some (i, r)) :
    refundKeys pfx gid routes path method
      = refundKeysAux pfx gid i r.dependencies 0 := by
  unfold refundKeys; rw [h]

theorem refundKeys_none {path method pfx gid : String} {routes : List Route}
    (h : findRoute path method routes 0 = none) :
    refundKeys pfx gid routes path method = [] := by
  unfold refundKeys; rw [h]

/-- C4 counterexample: for a route guarded by one RateLimiter whose
identifier override resolves to user-42 while the global identifier
resolves to 1.2.3.4, the charge path keys the counter with the override
but the refund path re-derives the key with the global identifier, so the
refunded key differs from the charged key. -/
theorem refundKey_override_counterexample :
    chargeKey "fastapi-limiter" "1.2.3.4" [exRouteOvr] "/items" "GET"
        ⟨0, some "user-42"⟩
      = "fastapi-limiter:user-42:0:0" ∧
    refundKeys "fastapi-limiter" "1.2.3.4" [exRouteOvr] "/items" "GET"
      = ["fastapi-limiter:1.2.3.4:0:0"] ∧
    chargeKey "fastapi-limiter" "1.2.3.4" [exRouteOvr] "/items" "GET"
        ⟨0, some "user-42"⟩
      ∉ refundKeys "fastapi-limiter" "1.2.3.4" [exRouteOvr] "/items" "GET" := by
  decide

/-- C4 amended: the refund path re-derives keys with the globally
configured identifier, so for a limiter with no identifier override,
when exactly one registered route matches the request and the limiter
appears among its dependencies, the refunded keys include the limiter's
charge key; and a refund that resolves no matching route derives no key,
so it performs no store operation and raises no error. -/
theorem refund_targets_charge_key (pfx gid path method : String)
    (pre post : List Route) (r : Route) (lid j : Nat)
    (hm : routeMatches path method r = true)
    (hpre : ∀ q ∈ pre, routeMatches path method q = false)
    (hpost : ∀ q ∈ post, routeMatches path method q = false)
    (hfind : findSelfIndex lid r.dependencies 0 = some j) :
    chargeKey pfx gid (pre ++ r :: post) path method ⟨lid, none⟩
      = scopeKey pfx gid pre.length j ∧
    scopeKey pfx gid pre.length j
      ∈ refundKeys pfx gid (pre ++ r :: post) path method ∧
    (∀ routes2 : List Route, findRoute path method routes2 0 = none →
      refundKeys pfx gid routes2 path method = []) ∧
    (∀ (now : Nat) (store : String → Option CounterRecord),
      runRefund now [] store = store) := by
  refine ⟨?_, ?_, fun routes2 h => refundKeys_none h, fun _ _ => rfl⟩
  · unfold chargeKey chargeIndices
    rw [chargeScan_found lid path method r hm post hpost pre hpre 0 (0, 0), hfind]
    simp
  · rw [refundKeys_found (findRoute_found path method r hm pre hpre post 0),
      Nat.zero_add]
    exact refundKeysAux_mem pfx gid pre.length lid r.dependencies 0 j hfind

theorem refund_targets_charge_key_witness :
    chargeKey "p" "g"
        [⟨"/a", ["GET"], [DepKind.otherDep, DepKind.rateLimiter 7 none]⟩]
        "/a" "GET" ⟨7, none⟩
      = scopeKey "p" "g" 0 1 ∧
    scopeKey "p" "g" 0 1
      ∈ refundKeys "p" "g"
          [⟨"/a", ["GET"], [DepKind.otherDep, DepKind.rateLimiter 7 none]⟩]
          "/a" "GET" := by
  have h := refund_targets_charge_key "p" "g" "/a" "GET" [] []
    ⟨"/a", ["GET"], [DepKind.otherDep, DepKind.rateLimiter 7 none]⟩ 7 1
    (by decide) (fun q hq => by simp at hq) (fun q hq => by simp at hq) (by decide)
  exact ⟨h.1, h.2.1⟩

end RefundPathTheorems

section WsTheorems

/-- C10: the websocket limiter never consults the bypass authenticator:
even when the call carries a configuration and request for which
tryBypass succeeds, the websocket call derives its scope key and executes
checkAndCharge on it (returning the script result and updating the store
at that key), while the HTTP path under the same credentials bypasses and
leaves the store untouched. -/
theorem ws_ignores_bypass (cfg : BypassConfig) (req : HttpReq)
    (pfx rateKey ctx gid : String) (lim : LimiterInst) (routes : List Route)
    (path method : String) (limit window now : Nat)
    (store : String → Option CounterRecord)
    (hb : tryBypass cfg req = true) :
    (wsLimiterCall cfg true req pfx rateKey ctx limit window now store).1
      = (checkAndCharge limit window now (store (wsKey pfx rateKey ctx))).1 ∧
    (wsLimiterCall cfg true req pfx rateKey ctx limit window now store).2
        (wsKey pfx rateKey ctx)
      = (checkAndCharge limit window now (store (wsKey pfx rateKey ctx))).2 ∧
    httpLimiterCall cfg lim true req pfx gid routes path method limit window
        now store
      = (HttpOutcome.bypassed, store) := by
  refine ⟨rfl, ?_, ?_⟩
  · simp [wsLimiterCall, applyAt]
  · unfold httpLimiterCall
    rw [hb]
    simp

theorem ws_ignores_bypass_witness :
    (wsLimiterCall exCfgQuery true exReqQuery "p" "rk" "c" 1 5 0 (fun _ => none)).1
      = (checkAndCharge 1 5 0 none).1 ∧
    (wsLimiterCall exCfgQuery true exReqQuery "p" "rk" "c" 1 5 0 (fun _ => none)).2
        (wsKey "p" "rk" "c")
      = (checkAndCharge 1 5 0 none).2 ∧
    httpLimiterCall exCfgQuery ⟨0, none⟩ true exReqQuery "p" "g" [] "/a" "GET" 1 5 0
        (fun _ => none)
      = (HttpOutcome.bypassed, fun _ => none) :=
  ws_ignores_bypass exCfgQuery exReqQuery "p" "rk" "c" "g" ⟨0, none⟩ [] "/a" "GET"
    1 5 0 (fun _ => none) (by decide)

end WsTheorems
